import Mathlib

/-!
Shallow embedding of the ObscuraCam firmware (src/src/main.cpp) and proofs
about its capture pipeline, persistent image counter, SD-card file serving,
file management handlers and initialization sequencing.

Machine integers are modelled as `Nat` with explicit `% 65536` where the
source uses `uint16_t`.  Arduino `String` values are modelled as `List Char`.
The SD card is modelled as a lookup structure; the EEPROM as a `Nat` field.
-/

/-- Events emitted by one call of `onSnap`, in program order.  `fbGet b`
records a call to `esp_camera_fb_get` with success flag `b`; `fbRet` records
`esp_camera_fb_return`; `incrCtr` the `++imageCtr`; `openFile b` the
`SD_MMC.open(..., FILE_WRITE)` with success flag; `writeImg` the
`file.write(fb->buf, fb->len)`; `eeWrite`/`eeCommit` the
`EEPROM.writeUShort`/`EEPROM.commit`; `flash` the shutter LED flash;
`closeFile` the `file.close()`; `redirect` the 302 response. -/
inductive SnapEv where
  | fbGet (ok : Bool)
  | fbRet
  | incrCtr
  | openFile (ok : Bool)
  | writeImg
  | eeWrite
  | eeCommit
  | flash
  | closeFile
  | redirect
deriving DecidableEq

/-- Environment of one `onSnap` call: the frame buffer the sensor returns
(`none` models `esp_camera_fb_get` returning NULL) and whether the
`SD_MMC.open(imageFilePath, FILE_WRITE)` succeeds. -/
structure SnapEnv where
  frame : Option (List Nat)
  openOk : Bool

/-- Mutable firmware state touched by `onSnap`: the in-memory `imageCtr`
(`uint16_t`, always `< 65536`), the counter value stored in EEPROM, and the
files written to the SD card photo directory. -/
structure CamState where
  imageCtr : Nat
  eeprom : Nat
  files : List (List Char × List Nat)

/-- Result of an `onSnap` call: `failCamera` is the
"Camera capture failed." 500 response, `failFile` the
"Unable to create the file for the image." 500 response, and `success`
carries the image file path and the sequence number embedded in it. -/
inductive SnapResult where
  | failCamera
  | failFile
  | success (path : List Char) (seq : Nat)
deriving DecidableEq

/-- Whether a `SnapResult` is the success/redirect outcome. -/
def SnapResult.isOk : SnapResult → Bool
  | .success _ _ => true
  | _ => false

/-- `String(PHOTO_PATH) + PHOTO_PREFIX + String(++imageCtr) + ".jpg"`:
the image file path for sequence number `n`. -/
def photoName (n : Nat) : List Char :=
  "/photos/Image".data ++ (Nat.repr n).data ++ ".jpg".data

/-- Output of one `onSnap` call: result, post-state, and the event trace in
program order. -/
structure SnapOut where
  res : SnapResult
  state : CamState
  trace : List SnapEv

/-- `onSnap` (main.cpp lines 378-412).  `esp_camera_fb_get`; on NULL, fail.
Then `++imageCtr` while building `imageFilePath`; `SD_MMC.open(...,
FILE_WRITE)`; on failure, return the 500 response -- note the code returns
WITHOUT `esp_camera_fb_return(fb)` on that path.  Otherwise
`file.write(fb->buf, fb->len)`, `EEPROM.writeUShort(IC_ADDR, imageCtr)`,
`EEPROM.commit()`, flash, `file.close()`, `esp_camera_fb_return(fb)` and the
302 redirect. -/
def onSnap (env : SnapEnv) (s : CamState) : SnapOut :=
  match env.frame with
  | none =>
      { res := .failCamera, state := s, trace := [.fbGet false] }
  | some fb =>
      let ctr := (s.imageCtr + 1) % 65536
      let path := photoName ctr
      match env.openOk with
      | false =>
          { res := .failFile
            state := { s with imageCtr := ctr }
            trace := [.fbGet true, .incrCtr, .openFile false] }
      | true =>
          { res := .success path ctr
            state := { imageCtr := ctr, eeprom := ctr, files := (path, fb) :: s.files }
            trace := [.fbGet true, .incrCtr, .openFile true, .writeImg,
                      .eeWrite, .eeCommit, .flash, .closeFile, .fbRet, .redirect] }

/-- Number of occurrences of event `e` in a trace. -/
def countEv (e : SnapEv) : List SnapEv → Nat
  | [] => 0
  | x :: r => (if x = e then 1 else 0) + countEv e r

/-- `eachPrecededBy a b t = true` iff no occurrence of `b` in `t` happens
before the first occurrence of `a`; i.e. every `b` is preceded by an `a`. -/
def eachPrecededBy (a b : SnapEv) : List SnapEv → Bool
  | [] => true
  | e :: r => if e = a then true else if e = b then false else eachPrecededBy a b r

/-- A power cycle: `setup()` re-reads the counter with
`imageCtr = EEPROM.readUShort(IC_ADDR)` (main.cpp line 571); the 16-bit read
is modelled by `% 65536`. -/
def powerCycle (s : CamState) : CamState :=
  { s with imageCtr := s.eeprom % 65536 }

/-- An externally visible step of the device: a `/snap` request with its
environment, or a power cycle (reset followed by `setup()`). -/
inductive Act where
  | snap (env : SnapEnv)
  | cycle

/-- Run a list of acts, collecting the `onSnap` results in order. -/
def runActs : CamState → List Act → List SnapResult × CamState
  | s, [] => ([], s)
  | s, .cycle :: rest => runActs (powerCycle s) rest
  | s, .snap env :: rest =>
      let o := onSnap env s
      let r := runActs o.state rest
      (o.res :: r.1, r.2)

/-- An act that cannot fail: a snap whose frame acquisition and file open
both succeed, or a power cycle. -/
def okAct : Act → Bool
  | .snap env => env.frame.isSome && env.openOk
  | .cycle => true

/-- All acts in the list succeed. -/
def allOk (acts : List Act) : Bool := acts.all okAct

/-- Number of `/snap` requests in an act list. -/
def numSnaps : List Act → Nat
  | [] => 0
  | .snap _ :: r => numSnaps r + 1
  | .cycle :: r => numSnaps r

/-- The sequence numbers of the successful results, in order. -/
def seqsOf : List SnapResult → List Nat
  | [] => []
  | .success _ n :: r => n :: seqsOf r
  | _ :: r => seqsOf r

/-- Sequence numbers a run of `k` successful captures is expected to
produce when the in-memory counter starts at `c`: each is the previous one
plus one, reduced modulo 2^16. -/
def expectedSeqs : Nat → Nat → List Nat
  | _, 0 => []
  | c, Nat.succ k => ((c + 1) % 65536) :: expectedSeqs ((c + 1) % 65536) k

/-- A node on the SD card as seen by the flat (path-indexed) model used for
`loadFromSdCard` and `handleCreate`: a regular file with its byte contents,
or a directory. -/
inductive DNode where
  | file (bytes : List Nat)
  | dir
deriving DecidableEq

/-- The characters of a string literal; Arduino `String` values are
modelled as `List Char`. -/
def chars (s : String) : List Char := s.data

/-- Arduino `String::endsWith`: `suf` is a suffix of `s`. -/
def sEnds (s suf : List Char) : Bool := decide (suf <:+ s)

/-- Arduino `String::indexOf('.') `-style search from the right:
`lastIndexOf c l` is the index of the last occurrence of `c` in `l`
(`none` models the return value -1). -/
def lastIndexOf (c : Char) : List Char → Option Nat
  | [] => none
  | a :: r =>
      match lastIndexOf c r with
      | some j => some (j + 1)
      | none => if a = c then some 0 else none

/-- `path.substring(0, path.lastIndexOf("."))` (main.cpp line 172): the
path with everything from the last dot on removed. -/
def stripFromLastDot (l : List Char) : List Char :=
  match lastIndexOf '.' l with
  | some j => l.take j
  | none => l

/-- The extension → MIME type chain of `loadFromSdCard`
(main.cpp lines 173-193); the fall-through keeps the initial
"text/plain". -/
def extMime (p : List Char) : List Char :=
  if sEnds p (chars ".htm") then chars "text/html"
  else if sEnds p (chars ".css") then chars "text/css"
  else if sEnds p (chars ".js") then chars "application/javascript"
  else if sEnds p (chars ".png") then chars "image/png"
  else if sEnds p (chars ".gif") then chars "image/gif"
  else if sEnds p (chars ".jpg") then chars "image/jpeg"
  else if sEnds p (chars ".ico") then chars "image/x-icon"
  else if sEnds p (chars ".xml") then chars "text/xml"
  else if sEnds p (chars ".pdf") then chars "application/pdf"
  else if sEnds p (chars ".zip") then chars "application/zip"
  else chars "text/plain"

/-- `loadFromSdCard` (main.cpp lines 163-217), returning
`some (dataType, servedPath)` for a successful serve (HTTP 200 streaming the
bytes of `servedPath` labeled `dataType`) and `none` for "file not found".
Mirrors the source: a path ending in "/" gets "index.htm" appended; a path
ending in ".src" is stripped at the last dot and keeps the initial
"text/plain" type, otherwise the extension chain sets the type; the first
open resolving to a directory redirects to its "/index.htm" with type forced
to "text/html"; a "download" request argument forces
"application/octet-stream" at the end. -/
def loadFromSdCard (sd : List Char → Option DNode) (download : Bool)
    (path0 : List Char) : Option (List Char × List Char) :=
  let path1 := if sEnds path0 (chars "/") then path0 ++ chars "index.htm" else path0
  let path2 := if sEnds path1 (chars ".src") then stripFromLastDot path1 else path1
  let dt := if sEnds path1 (chars ".src") then chars "text/plain" else extMime path1
  match sd path2 with
  | none => none
  | some (.file _) =>
      some ((if download then chars "application/octet-stream" else dt), path2)
  | some .dir =>
      match sd (path2 ++ chars "/index.htm") with
      | none => none
      | some _ =>
          some ((if download then chars "application/octet-stream" else chars "text/html"),
                path2 ++ chars "/index.htm")

/-- Response of the `/edit` handlers: 500 "BAD ARGS", 500 "BAD PATH", or
the 200 `returnOK()`. -/
inductive EditResp where
  | badArgs
  | badPath
  | ok
deriving DecidableEq

/-- The root path string "/". -/
def rootChars : List Char := chars "/"

/-- `SD_MMC.exists` over the flat filesystem model. -/
def fsExists (fs : List (List Char × DNode)) (p : List Char) : Bool :=
  (fs.lookup p).isSome

/-- `path.indexOf('.') > 0` (main.cpp line 312): the first dot of the path
exists and sits strictly after the first character. -/
def dotAfterStart (p : List Char) : Bool :=
  match p.findIdx? (fun c => c = '.') with
  | some i => decide (0 < i)
  | none => false

/-- `handleCreate` (main.cpp lines 302-322).  No argument: "BAD ARGS"; root
path or existing node: "BAD PATH"; otherwise a path whose first dot is after
position 0 gets `SD_MMC.open(..., FILE_WRITE)` followed by `file.write(0)`
-- creating a file containing the single byte 0 -- and any other path gets
`SD_MMC.mkdir`; both return `returnOK()`. -/
def handleCreate (fs : List (List Char × DNode)) (args : List (List Char)) :
    EditResp × List (List Char × DNode) :=
  match args with
  | [] => (.badArgs, fs)
  | path :: _ =>
      if path = rootChars ∨ fsExists fs path = true then (.badPath, fs)
      else if dotAfterStart path then (.ok, (path, DNode.file [0]) :: fs)
      else (.ok, (path, DNode.dir) :: fs)

/-- Hierarchical view of the SD card used for `handleDelete` /
`deleteRecursive`: a file with its bytes, or a directory with a list of
named children.  Paths into the tree are lists of path segments; the empty
list is the root "/". -/
inductive FsTree where
  | file (bytes : List Nat)
  | dir (children : List (String × FsTree))

/-- A primitive driver call made by `deleteRecursive`: `SD_MMC.remove` on a
file path, or `SD_MMC.rmdir` on a directory path. -/
inductive DelOp where
  | rm (p : List String)
  | rmdir (p : List String)
deriving DecidableEq

/-- The path a `DelOp` addresses. -/
def opPath : DelOp → List String
  | .rm p => p
  | .rmdir p => p

/-- Node lookup along a segment path. -/
def lookupT : FsTree → List String → Option FsTree
  | t, [] => some t
  | .file _, _ :: _ => none
  | .dir ch, n :: rest =>
      match ch.lookup n with
      | some t => lookupT t rest
      | none => none

mutual

/-- The sequence of driver calls `deleteRecursive(path)` (main.cpp lines
252-279) performs on the subtree found at `p`: a non-directory is removed
with `SD_MMC.remove`; for a directory every child entry is processed in
order -- recursing into subdirectory children, removing file children --
and `SD_MMC.rmdir(path)` comes last. -/
def delTrace (p : List String) : FsTree → List DelOp
  | .file _ => [DelOp.rm p]
  | .dir ch => delTraceList p ch ++ [DelOp.rmdir p]

/-- Driver calls for the children of a directory at `p`, in entry order
(the `while (true) { openNextFile ... }` loop). -/
def delTraceList (p : List String) : List (String × FsTree) → List DelOp
  | [] => []
  | (nm, t) :: rest => delTrace (p ++ [nm]) t ++ delTraceList p rest

end

/-- Erase the node addressed by a non-empty path from the tree (the effect
of `SD_MMC.remove` / `SD_MMC.rmdir` on their target; an empty path or a
missing node leaves the tree unchanged). -/
def fsErase : FsTree → List String → FsTree
  | t, [] => t
  | .file b, _ :: _ => .file b
  | .dir ch, [n] => .dir (ch.filter fun e => e.1 != n)
  | .dir ch, n :: m :: rest =>
      .dir (ch.map fun e => if e.1 = n then (e.1, fsErase e.2 (m :: rest)) else e)

/-- Apply a sequence of driver calls to the tree, in order. -/
def applyOps (t : FsTree) (ops : List DelOp) : FsTree :=
  ops.foldl (fun acc op => fsErase acc (opPath op)) t

/-- `deleteRecursive` (main.cpp lines 252-279) as a state transformer: the
driver calls it performs, applied to the tree. -/
def deleteRecursive (t : FsTree) (p : List String) : FsTree :=
  match lookupT t p with
  | some sub => applyOps t (delTrace p sub)
  | none => fsErase t p

/-- `handleDelete` (main.cpp lines 285-296).  No argument: "BAD ARGS"; the
root path or a path with no node: "BAD PATH"; otherwise `deleteRecursive`
then `returnOK()`. -/
def handleDelete (t : FsTree) (args : List (List String)) : EditResp × FsTree :=
  match args with
  | [] => (.badArgs, t)
  | p :: _ =>
      if p = [] ∨ (lookupT t p).isNone = true then (.badPath, t)
      else (.ok, deleteRecursive t p)

/-- Outcome of `setup()` (main.cpp lines 442-577): one of the three
terminal failure states -- each an infinite `while (true)` loop flashing its
distinct pattern, so the device never serves requests -- or readiness with
the counter loaded from EEPROM. -/
inductive InitOutcome where
  | cameraFailed
  | storageFailed
  | storageMissing
  | ready (ctr : Nat)

/-- Environment of one `setup()` run: whether `esp_camera_init` returns
`ESP_OK`, whether `SD_MMC.begin` succeeds, whether `SD_MMC.cardType()` is
not `CARD_NONE`, and the counter bytes stored in EEPROM. -/
structure InitEnv where
  cameraOk : Bool
  mountOk : Bool
  cardPresent : Bool
  storedCtr : Nat

/-- `setup()` initialization sequencing (main.cpp lines 522-576), returning
the outcome and whether the SD card mount was attempted.  Camera init comes
first; its failure loop is entered before `SD_MMC.begin` is ever called;
then the mount, then the card-presence check, then
`imageCtr = EEPROM.readUShort(IC_ADDR)` (a 16-bit read). -/
def setupSeq (e : InitEnv) : InitOutcome × Bool :=
  match e.cameraOk with
  | false => (.cameraFailed, false)
  | true =>
      match e.mountOk with
      | false => (.storageFailed, true)
      | true =>
          match e.cardPresent with
          | false => (.storageMissing, true)
          | true => (.ready (e.storedCtr % 65536), true)

/-- Flash count of the indicator pattern each outcome repeats
(CAMI_FLASH_COUNT, SDMI_FLASH_COUNT, SDCI_FLASH_COUNT, READY_FLASH_COUNT). -/
def outcomeFlashes : InitOutcome → Nat
  | .cameraFailed => 2
  | .storageFailed => 3
  | .storageMissing => 4
  | .ready _ => 5

/-- A sample SD card tree used by concrete witnesses: a "photos" directory
holding a file and a subdirectory with a nested file, next to a plain
file. -/
def sampleTree : FsTree :=
  .dir [("photos", .dir [("a", .file [1]), ("s", .dir [("b", .file [2])])]),
        ("x", .file [5])]

/-- Inverting a successful `onSnap`: the returned sequence number is the
incremented 16-bit counter, and both the in-memory counter and the EEPROM
copy end up equal to it. -/
theorem onSnap_success_inv {env : SnapEnv} {s : CamState} {p : List Char} {n : Nat}
    (h : (onSnap env s).res = .success p n) :
    n = (s.imageCtr + 1) % 65536 ∧ (onSnap env s).state.imageCtr = n ∧
    (onSnap env s).state.eeprom = n := by
  rcases env with ⟨frame, opok⟩
  cases frame with
  | none => exact SnapResult.noConfusion h
  | some fb =>
      cases opok with
      | false => exact SnapResult.noConfusion h
      | true =>
          have h' : SnapResult.success (photoName ((s.imageCtr + 1) % 65536))
              ((s.imageCtr + 1) % 65536) = SnapResult.success p n := h
          injection h' with h1 h2
          exact ⟨h2.symm, h2, h2⟩

/-- Inverting an `onSnap` that fails at the `SD_MMC.open`: the in-memory
counter has advanced, but the EEPROM value and the stored files are
untouched. -/
theorem onSnap_failFile_inv {env : SnapEnv} {s : CamState}
    (h : (onSnap env s).res = .failFile) :
    (onSnap env s).state.imageCtr = (s.imageCtr + 1) % 65536 ∧
    (onSnap env s).state.eeprom = s.eeprom ∧
    (onSnap env s).state.files = s.files := by
  rcases env with ⟨frame, opok⟩
  cases frame with
  | none => exact SnapResult.noConfusion h
  | some fb =>
      cases opok with
      | false => exact ⟨rfl, rfl, rfl⟩
      | true => exact SnapResult.noConfusion h

/-- Claim C1 (refuted by the code; exhibit of the bug): when frame
acquisition succeeds but the image file cannot be opened, `onSnap` returns
with one successful `esp_camera_fb_get` and zero `esp_camera_fb_return`
calls in its trace -- the frame buffer is leaked on that exit path.  For
contrast, the success path releases the one acquired buffer. -/
theorem c1_framebuffer_leak_on_open_failure :
    countEv (.fbGet true) (onSnap ⟨some [1, 2, 3], false⟩ ⟨0, 0, []⟩).trace = 1 ∧
    countEv .fbRet (onSnap ⟨some [1, 2, 3], false⟩ ⟨0, 0, []⟩).trace = 0 ∧
    countEv (.fbGet true) (onSnap ⟨some [1, 2, 3], true⟩ ⟨0, 0, []⟩).trace = 1 ∧
    countEv .fbRet (onSnap ⟨some [1, 2, 3], true⟩ ⟨0, 0, []⟩).trace = 1 :=
  ⟨rfl, rfl, rfl, rfl⟩

/-- Claim C2: in every `onSnap` call the counter increment precedes the
image write, every EEPROM commit is preceded by the image write, a
successful capture leaves the EEPROM equal to the returned sequence number,
and a failed capture performs no EEPROM commit and leaves the stored value
unchanged. -/
theorem c2_commit_discipline (env : SnapEnv) (s : CamState) :
    eachPrecededBy .incrCtr .writeImg (onSnap env s).trace = true ∧
    eachPrecededBy .writeImg .eeCommit (onSnap env s).trace = true ∧
    (∀ p n, (onSnap env s).res = .success p n → (onSnap env s).state.eeprom = n) ∧
    ((onSnap env s).res.isOk = false →
      SnapEv.eeCommit ∉ (onSnap env s).trace ∧ (onSnap env s).state.eeprom = s.eeprom) := by
  rcases env with ⟨frame, opok⟩
  cases frame with
  | none =>
      exact ⟨rfl, rfl, fun p n h => SnapResult.noConfusion h,
             fun _ => ⟨by simp [onSnap], rfl⟩⟩
  | some fb =>
      cases opok with
      | false =>
          exact ⟨rfl, rfl, fun p n h => SnapResult.noConfusion h,
                 fun _ => ⟨by simp [onSnap], rfl⟩⟩
      | true =>
          refine ⟨rfl, rfl, ?_, fun hk => Bool.noConfusion hk⟩
          intro p n h
          have h' : SnapResult.success (photoName ((s.imageCtr + 1) % 65536))
              ((s.imageCtr + 1) % 65536) = SnapResult.success p n := h
          injection h'

/-- Witness for C2 at a concrete failed capture: file open fails, no EEPROM
commit appears in the trace and the stored counter stays 5. -/
theorem c2_commit_discipline_witness :
    SnapEv.eeCommit ∉ (onSnap ⟨some [2], false⟩ ⟨5, 5, []⟩).trace ∧
    (onSnap ⟨some [2], false⟩ ⟨5, 5, []⟩).state.eeprom = 5 :=
  (c2_commit_discipline ⟨some [2], false⟩ ⟨5, 5, []⟩).2.2.2 rfl

/-- Claim C3 as stated is refuted at the 16-bit wrap: starting from counter
65533, a successful capture returns 65534, a capture failing at the file
open consumes 65535, and the next successful capture returns 0, which is
not 65534 + 2. -/
theorem c3_wrap_counterexample :
    (onSnap ⟨some [1], true⟩ ⟨65533, 65533, []⟩).res = .success (photoName 65534) 65534 ∧
    (onSnap ⟨some [1], false⟩
        (onSnap ⟨some [1], true⟩ ⟨65533, 65533, []⟩).state).res = .failFile ∧
    (onSnap ⟨some [1], true⟩
        (onSnap ⟨some [1], false⟩
          (onSnap ⟨some [1], true⟩ ⟨65533, 65533, []⟩).state).state).res
      = .success (photoName 0) 0 ∧
    (0 : Nat) ≠ 65534 + 2 :=
  ⟨rfl, rfl, rfl, by decide⟩

/-- Claim C3 (amended): after a successful capture returning `n0`, a
capture failing at the storage open, then a successful capture with no
power cycle in between, the second success returns `(n0 + 2) % 65536` --
exactly two greater whenever no 16-bit wrap intervenes. -/
theorem c3_skip_two_modulo (s : CamState) (e0 e1 e2 : SnapEnv)
    (p0 p2 : List Char) (n0 n2 : Nat)
    (h0 : (onSnap e0 s).res = .success p0 n0)
    (h1 : (onSnap e1 (onSnap e0 s).state).res = .failFile)
    (h2 : (onSnap e2 (onSnap e1 (onSnap e0 s).state).state).res = .success p2 n2) :
    n2 = (n0 + 2) % 65536 ∧ (n0 + 2 < 65536 → n2 = n0 + 2) := by
  obtain ⟨hn0, hA, -⟩ := onSnap_success_inv h0
  obtain ⟨hB, -, -⟩ := onSnap_failFile_inv h1
  obtain ⟨hn2, -, -⟩ := onSnap_success_inv h2
  rw [hB, hA] at hn2
  exact ⟨by omega, fun _ => by omega⟩

/-- Witness for the amended C3: success (11), storage failure (12 skipped),
success returns 13 = (11 + 2) % 65536. -/
theorem c3_skip_two_modulo_witness :
    (onSnap ⟨some [4], true⟩
        (onSnap ⟨some [4], false⟩
          (onSnap ⟨some [4], true⟩ ⟨10, 10, []⟩).state).state).res
      = .success (photoName 13) 13 ∧
    (13 : Nat) = (11 + 2) % 65536 :=
  ⟨rfl, (c3_skip_two_modulo ⟨10, 10, []⟩ ⟨some [4], true⟩ ⟨some [4], false⟩ ⟨some [4], true⟩
      (photoName 11) (photoName 13) 11 13 rfl rfl rfl).1⟩

/-- Claim C9: a capture failing at the file open leaves the EEPROM value
untouched; after a power cycle the counter reads back as the last committed
value, and the next successful capture reuses exactly the sequence number
the failed attempt had consumed. -/
theorem c9_skipped_number_not_durable (s : CamState) (e1 e2 : SnapEnv)
    (hinv : s.imageCtr = s.eeprom) (hlt : s.imageCtr < 65536)
    (h1 : (onSnap e1 s).res = .failFile) :
    (onSnap e1 s).state.eeprom = s.eeprom ∧
    (powerCycle (onSnap e1 s).state).imageCtr = s.eeprom ∧
    (∀ p n, (onSnap e2 (powerCycle (onSnap e1 s).state)).res = .success p n →
        n = (onSnap e1 s).state.imageCtr) := by
  obtain ⟨hB, hE, -⟩ := onSnap_failFile_inv h1
  refine ⟨hE, ?_, ?_⟩
  · show (onSnap e1 s).state.eeprom % 65536 = s.eeprom
    rw [hE]; omega
  · intro p n h2
    obtain ⟨hn, -, -⟩ := onSnap_success_inv h2
    simp only [powerCycle] at hn
    rw [hE] at hn
    rw [hB]
    omega

/-- Witness for C9: with the counter at 7 committed, a failed attempt
consumes 8 without committing; after a power cycle the next success
returns 8 again. -/
theorem c9_skipped_number_not_durable_witness :
    (onSnap ⟨some [4], false⟩ ⟨7, 7, []⟩).state.eeprom = 7 ∧
    (onSnap ⟨some [4], true⟩
        (powerCycle (onSnap ⟨some [4], false⟩ ⟨7, 7, []⟩).state)).res
      = .success (photoName 8) 8 ∧
    (8 : Nat) = (onSnap ⟨some [4], false⟩ ⟨7, 7, []⟩).state.imageCtr := by
  have h := c9_skipped_number_not_durable ⟨7, 7, []⟩ ⟨some [4], false⟩ ⟨some [4], true⟩
    rfl (by decide) rfl
  exact ⟨h.1, rfl, h.2.2 (photoName 8) 8 rfl⟩

/-- In a run in which every frame acquisition and file open succeeds,
possibly interleaved with power cycles, the successful sequence numbers are
exactly `expectedSeqs` of the starting counter. -/
theorem runActs_seqs_eq : ∀ (acts : List Act) (s : CamState), allOk acts = true →
    s.imageCtr = s.eeprom → s.imageCtr < 65536 →
    seqsOf (runActs s acts).1 = expectedSeqs s.imageCtr (numSnaps acts) := by
  intro acts
  induction acts with
  | nil => intro s _ _ _; rfl
  | cons a rest ih =>
      intro s hok hinv hlt
      rw [allOk, List.all_cons, Bool.and_eq_true] at hok
      obtain ⟨h1, h2⟩ := hok
      cases a with
      | cycle =>
          have hpc : (powerCycle s).imageCtr = s.imageCtr := by
            simp only [powerCycle]; omega
          show seqsOf (runActs (powerCycle s) rest).1 = expectedSeqs s.imageCtr (numSnaps rest)
          rw [← hpc]
          exact ih (powerCycle s) h2 (by simp only [powerCycle]; omega)
            (by simp only [powerCycle]; omega)
      | snap env =>
          rcases env with ⟨frame, opok⟩
          rw [okAct, Bool.and_eq_true] at h1
          obtain ⟨hf, ho⟩ := h1
          cases frame with
          | none => exact absurd hf (by simp)
          | some fb =>
              cases opok with
              | false => exact absurd ho (by simp)
              | true =>
                  show seqsOf ((onSnap ⟨some fb, true⟩ s).res ::
                      (runActs (onSnap ⟨some fb, true⟩ s).state rest).1)
                    = expectedSeqs s.imageCtr (numSnaps rest + 1)
                  have hexp : expectedSeqs s.imageCtr (numSnaps rest + 1)
                      = ((s.imageCtr + 1) % 65536)
                        :: expectedSeqs ((s.imageCtr + 1) % 65536) (numSnaps rest) := rfl
                  rw [hexp]
                  show ((s.imageCtr + 1) % 65536)
                      :: seqsOf (runActs (onSnap ⟨some fb, true⟩ s).state rest).1
                    = ((s.imageCtr + 1) % 65536)
                      :: expectedSeqs ((s.imageCtr + 1) % 65536) (numSnaps rest)
                  congr 1
                  refine ih (onSnap ⟨some fb, true⟩ s).state h2 rfl ?_
                  show (s.imageCtr + 1) % 65536 < 65536
                  omega

/-- Members of `expectedSeqs c k` lie in `(c, c + k]` when no wrap
occurs. -/
theorem expectedSeqs_mem_bound : ∀ (k c x : Nat), c + k < 65536 →
    x ∈ expectedSeqs c k → c < x ∧ x ≤ c + k := by
  intro k
  induction k with
  | zero => intro c x _ hx; simp [expectedSeqs] at hx
  | succ k ih =>
      intro c x hb hx
      have hc : (c + 1) % 65536 = c + 1 := by omega
      rw [expectedSeqs, hc] at hx
      rcases List.mem_cons.mp hx with h | h
      · omega
      · have := ih (c + 1) x (by omega) h
        omega

/-- `expectedSeqs c k` is strictly increasing when no wrap occurs. -/
theorem expectedSeqs_pairwise : ∀ (k c : Nat), c + k < 65536 →
    List.Pairwise (· < ·) (expectedSeqs c k) := by
  intro k
  induction k with
  | zero => intro c _; simp [expectedSeqs]
  | succ k ih =>
      intro c hb
      have hc : (c + 1) % 65536 = c + 1 := by omega
      rw [expectedSeqs, hc]
      refine List.Pairwise.cons ?_ (ih (c + 1) (by omega))
      intro x hx
      exact (expectedSeqs_mem_bound k (c + 1) x (by omega) hx).1

/-- Successive entries of `expectedSeqs` differ by one modulo 2^16. -/
theorem expectedSeqs_chain : ∀ (k c : Nat),
    List.Chain' (fun a b => b = (a + 1) % 65536) (expectedSeqs c k) := by
  intro k
  induction k with
  | zero => intro c; simp [expectedSeqs]
  | succ k ih =>
      intro c
      rw [expectedSeqs]
      refine List.chain'_cons'.mpr ⟨?_, ih ((c + 1) % 65536)⟩
      intro b hb
      cases k with
      | zero => simp [expectedSeqs] at hb
      | succ k' =>
          rw [expectedSeqs] at hb
          simp only [List.head?_cons, Option.mem_def, Option.some.injEq] at hb
          omega

/-- Claim C4 as stated is refuted at the 16-bit wrap: from counter 65534
two successful captures return 65535 and then 0, and 0 is not greater than
65535. -/
theorem c4_wrap_counterexample :
    (onSnap ⟨some [1], true⟩ ⟨65534, 65534, []⟩).res = .success (photoName 65535) 65535 ∧
    (onSnap ⟨some [1], true⟩
        (onSnap ⟨some [1], true⟩ ⟨65534, 65534, []⟩).state).res = .success (photoName 0) 0 ∧
    ¬ (65535 : Nat) < 0 :=
  ⟨rfl, rfl, by decide⟩

/-- Claim C4 (amended): in any run of successful captures, with power
cycles allowed between them, successive returned sequence numbers differ by
one modulo 2^16, and the whole sequence is strictly increasing provided no
wrap occurs during the run (starting counter + number of captures below
65536). -/
theorem c4_sequence_monotone_mod (acts : List Act) (s : CamState)
    (hok : allOk acts = true) (hinv : s.imageCtr = s.eeprom)
    (hlt : s.imageCtr < 65536) :
    List.Chain' (fun a b => b = (a + 1) % 65536) (seqsOf (runActs s acts).1) ∧
    (s.imageCtr + numSnaps acts < 65536 →
      List.Pairwise (· < ·) (seqsOf (runActs s acts).1)) := by
  have h := runActs_seqs_eq acts s hok hinv hlt
  rw [h]
  exact ⟨expectedSeqs_chain _ _, fun hb => expectedSeqs_pairwise _ _ hb⟩

/-- Witness for the amended C4: two successful captures with a power cycle
in between return [11, 12], strictly increasing. -/
theorem c4_sequence_monotone_mod_witness :
    seqsOf (runActs ⟨10, 10, []⟩
      [Act.snap ⟨some [2], true⟩, Act.cycle, Act.snap ⟨some [3], true⟩]).1 = [11, 12] ∧
    List.Pairwise (· < ·) (seqsOf (runActs ⟨10, 10, []⟩
      [Act.snap ⟨some [2], true⟩, Act.cycle, Act.snap ⟨some [3], true⟩]).1) :=
  ⟨rfl, (c4_sequence_monotone_mod
      [Act.snap ⟨some [2], true⟩, Act.cycle, Act.snap ⟨some [3], true⟩]
      ⟨10, 10, []⟩ rfl rfl (by decide)).2 (by decide)⟩

/-- Unfolding `sEnds` to the suffix relation. -/
theorem sEnds_iff {s suf : List Char} : sEnds s suf = true ↔ suf <:+ s := by
  simp [sEnds]

/-- A single-character suffix is the last character. -/
theorem suffix_single_last {a : Char} {l : List Char} (h : [a] <:+ l) :
    l.getLast? = some a := by
  obtain ⟨t, rfl⟩ := h
  exact List.getLast?_append_of_ne_nil t (by simp)

/-- A string whose last character is `b` does not end with a suffix whose
last character differs from `b`. -/
theorem sEnds_false_of_getLast {p suf : List Char} {a b : Char}
    (h1 : suf.getLast? = some a) (h2 : p.getLast? = some b) (hne : a ≠ b) :
    sEnds p suf = false := by
  cases hsb : sEnds p suf with
  | false => rfl
  | true =>
      obtain ⟨t, rfl⟩ := sEnds_iff.mp hsb
      have hsuf : suf ≠ [] := by intro h; rw [h] at h1; exact Option.noConfusion h1
      rw [List.getLast?_append_of_ne_nil t hsuf, h1] at h2
      exact absurd (Option.some.inj h2) hne

/-- A path ending in ".src" has last character 'c'. -/
theorem getLast_of_src {p : List Char} (h : sEnds p (chars ".src") = true) :
    p.getLast? = some 'c' := by
  obtain ⟨t, rfl⟩ := sEnds_iff.mp h
  rw [List.getLast?_append_of_ne_nil t (by simp [chars])]
  rfl

/-- Appending "index.htm" yields a path with last character 'm'. -/
theorem getLast_append_index (p : List Char) :
    (p ++ chars "index.htm").getLast? = some 'm' := by
  rw [List.getLast?_append_of_ne_nil p (by simp [chars])]
  rfl

/-- The last dot of `t ++ ".src"` sits exactly at position `t.length`. -/
theorem lastIndexOf_concat_src : ∀ t : List Char,
    lastIndexOf '.' (t ++ chars ".src") = some t.length := by
  intro t
  induction t with
  | nil => rfl
  | cons a r ih =>
      show lastIndexOf '.' (a :: (r ++ chars ".src")) = some (r.length + 1)
      simp [lastIndexOf, ih]

/-- `substring(0, lastIndexOf("."))` on a path ending in ".src" strips
exactly the ".src" suffix. -/
theorem stripFromLastDot_src (t : List Char) :
    stripFromLastDot (t ++ chars ".src") = t := by
  simp only [stripFromLastDot, lastIndexOf_concat_src]
  exact List.take_left t _

/-- Claim C5: a request path ending in "/" is served exactly as the path
with "index.htm" appended; a request path ending in ".src" whose stripped
path holds a file is served from the stripped path with the "text/plain"
label regardless of the stripped name's extension; and stripping removes
exactly the ".src" suffix. -/
theorem c5_path_resolution (sd : List Char → Option DNode) (p : List Char) :
    (sEnds p (chars "/") = true →
      loadFromSdCard sd false p = loadFromSdCard sd false (p ++ chars "index.htm")) ∧
    (sEnds p (chars ".src") = true →
      ∀ bs, sd (stripFromLastDot p) = some (DNode.file bs) →
        loadFromSdCard sd false p = some (chars "text/plain", stripFromLastDot p)) ∧
    (∀ t, p = t ++ chars ".src" → stripFromLastDot p = t) := by
  refine ⟨?_, ?_, ?_⟩
  · intro h
    have h2 : sEnds (p ++ chars "index.htm") (chars "/") = false :=
      sEnds_false_of_getLast rfl (getLast_append_index p) (by decide)
    simp only [loadFromSdCard, h, h2, Bool.false_eq_true, if_false, if_true]
  · intro h bs hsd
    have hl : p.getLast? = some 'c' := getLast_of_src h
    have hns : sEnds p (chars "/") = false :=
      sEnds_false_of_getLast rfl hl (by decide)
    simp only [loadFromSdCard, h, hns, Bool.false_eq_true, if_false, if_true, hsd]
  · intro t ht
    rw [ht]
    exact stripFromLastDot_src t

/-- Witness for C5 on a concrete two-file SD card: "/" serves like
"/index.htm", and "/page.htm.src" serves "/page.htm" as "text/plain". -/
theorem c5_path_resolution_witness :
    loadFromSdCard
        (fun q => if q = chars "/index.htm" then some (DNode.file [9])
          else if q = chars "/page.htm" then some (DNode.file [3]) else none)
        false (chars "/")
      = loadFromSdCard
        (fun q => if q = chars "/index.htm" then some (DNode.file [9])
          else if q = chars "/page.htm" then some (DNode.file [3]) else none)
        false (chars "/" ++ chars "index.htm") ∧
    loadFromSdCard
        (fun q => if q = chars "/index.htm" then some (DNode.file [9])
          else if q = chars "/page.htm" then some (DNode.file [3]) else none)
        false (chars "/page.htm.src")
      = some (chars "text/plain", stripFromLastDot (chars "/page.htm.src")) ∧
    stripFromLastDot (chars "/page.htm.src") = chars "/page.htm" := by
  refine ⟨(c5_path_resolution
        (fun q => if q = chars "/index.htm" then some (DNode.file [9])
          else if q = chars "/page.htm" then some (DNode.file [3]) else none)
        (chars "/")).1 (by decide),
      (c5_path_resolution
        (fun q => if q = chars "/index.htm" then some (DNode.file [9])
          else if q = chars "/page.htm" then some (DNode.file [3]) else none)
        (chars "/page.htm.src")).2.1 (by decide) [3] (by decide),
      (c5_path_resolution
        (fun q => if q = chars "/index.htm" then some (DNode.file [9])
          else if q = chars "/page.htm" then some (DNode.file [3]) else none)
        (chars "/page.htm.src")).2.2 (chars "/page.htm") (by decide)⟩

/-- Claim C10: a request path (no trailing "/", no ".src") naming a
directory on the card is served as that directory's "index.htm", and the
content type is forced to "text/html" whatever the original path's
extension classification would have been. -/
theorem c10_dir_index_forced_html (sd : List Char → Option DNode) (p : List Char)
    (node : DNode)
    (h1 : sEnds p (chars "/") = false) (h2 : sEnds p (chars ".src") = false)
    (h3 : sd p = some DNode.dir)
    (h4 : sd (p ++ chars "/index.htm") = some node) :
    loadFromSdCard sd false p = some (chars "text/html", p ++ chars "/index.htm") := by
  simp only [loadFromSdCard, h1, h2, Bool.false_eq_true, if_false, h3, h4]

/-- Witness for C10: "/d.jpg" names a directory, so "/d.jpg/index.htm" is
served with type "text/html" although the path classifies as "image/jpeg". -/
theorem c10_dir_index_forced_html_witness :
    loadFromSdCard
        (fun q => if q = chars "/d.jpg" then some DNode.dir
          else if q = chars "/d.jpg/index.htm" then some (DNode.file [1]) else none)
        false (chars "/d.jpg")
      = some (chars "text/html", chars "/d.jpg" ++ chars "/index.htm") :=
  c10_dir_index_forced_html _ (chars "/d.jpg") (DNode.file [1])
    (by decide) (by decide) (by decide) (by decide)

/-- Claim C6 as stated is refuted on two points at concrete inputs: the
"file" branch of the create operation writes one zero byte, so the created
node is a one-byte file, not an empty one; and a path whose only dot is its
first character (".cfg" contains a dot) creates a directory, not a file. -/
theorem c6_create_counterexample :
    (handleCreate [] [chars "/a.txt"]).2.lookup (chars "/a.txt") = some (DNode.file [0]) ∧
    DNode.file [0] ≠ DNode.file [] ∧
    '.' ∈ chars ".cfg" ∧
    (handleCreate [] [chars ".cfg"]).2.lookup (chars ".cfg") = some DNode.dir := by
  refine ⟨by decide, by decide, by decide, by decide⟩

/-- Claim C6 (amended): create fails with "BAD PATH" when the path is the
root or already exists; otherwise, if the path has a dot strictly after its
first character it creates a file containing the single byte 0 (written by
`file.write(0)` to force the file into existence), and if not (no dot, or a
dot only at position 0) it creates a directory; both return OK. -/
theorem c6_create_behavior (fs : List (List Char × DNode))
    (args : List (List Char)) (path : List Char) (rest : List (List Char))
    (hargs : args = path :: rest) :
    ((path = rootChars ∨ fsExists fs path = true) →
      handleCreate fs args = (.badPath, fs)) ∧
    (path ≠ rootChars → fsExists fs path = false → dotAfterStart path = true →
      handleCreate fs args = (.ok, (path, DNode.file [0]) :: fs)) ∧
    (path ≠ rootChars → fsExists fs path = false → dotAfterStart path = false →
      handleCreate fs args = (.ok, (path, DNode.dir) :: fs)) := by
  subst hargs
  refine ⟨?_, ?_, ?_⟩
  · intro h
    simp only [handleCreate, if_pos h]
  · intro h1 h2 h3
    have hcond : ¬ (path = rootChars ∨ fsExists fs path = true) := by
      intro hc
      rcases hc with hc | hc
      · exact h1 hc
      · rw [h2] at hc; exact Bool.noConfusion hc
    simp only [handleCreate, if_neg hcond, h3, if_true]
  · intro h1 h2 h3
    have hcond : ¬ (path = rootChars ∨ fsExists fs path = true) := by
      intro hc
      rcases hc with hc | hc
      · exact h1 hc
      · rw [h2] at hc; exact Bool.noConfusion hc
    simp only [handleCreate, if_neg hcond, h3, Bool.false_eq_true, if_false]

/-- Witness for the amended C6 at concrete inputs: creating "/b.txt" on an
empty card yields the one-byte file, creating "/d" yields a directory, and
re-creating an existing path fails with BAD PATH. -/
theorem c6_create_behavior_witness :
    handleCreate [] [chars "/b.txt"] = (.ok, [(chars "/b.txt", DNode.file [0])]) ∧
    handleCreate [] [chars "/d"] = (.ok, [(chars "/d", DNode.dir)]) ∧
    handleCreate [(chars "/d", DNode.dir)] [chars "/d"]
      = (.badPath, [(chars "/d", DNode.dir)]) := by
  refine ⟨(c6_create_behavior [] [chars "/b.txt"] (chars "/b.txt") [] rfl).2.1
      (by decide) (by decide) (by decide),
    (c6_create_behavior [] [chars "/d"] (chars "/d") [] rfl).2.2
      (by decide) (by decide) (by decide),
    (c6_create_behavior [(chars "/d", DNode.dir)] [chars "/d"] (chars "/d") [] rfl).1
      (Or.inr (by decide))⟩

/-- Claim C8: initialization is strictly ordered.  Camera init failure
yields the terminal CameraFailed outcome with the SD mount never attempted;
camera success with mount failure yields StorageFailed; mount success with
no card yields StorageMissing; only when camera init, mount and card check
all succeed is the outcome Ready, with the counter loaded by the 16-bit
EEPROM read.  The three terminal failure outcomes and Ready all flash
distinct indicator patterns. -/
theorem c8_init_ordering (e : InitEnv) :
    (e.cameraOk = false → setupSeq e = (.cameraFailed, false)) ∧
    (e.cameraOk = true → e.mountOk = false → setupSeq e = (.storageFailed, true)) ∧
    (e.cameraOk = true → e.mountOk = true → e.cardPresent = false →
      setupSeq e = (.storageMissing, true)) ∧
    (e.cameraOk = true → e.mountOk = true → e.cardPresent = true →
      setupSeq e = (.ready (e.storedCtr % 65536), true)) ∧
    (outcomeFlashes .cameraFailed ≠ outcomeFlashes .storageFailed ∧
     outcomeFlashes .cameraFailed ≠ outcomeFlashes .storageMissing ∧
     outcomeFlashes .storageFailed ≠ outcomeFlashes .storageMissing ∧
     outcomeFlashes .cameraFailed ≠ outcomeFlashes (.ready (e.storedCtr % 65536)) ∧
     outcomeFlashes .storageFailed ≠ outcomeFlashes (.ready (e.storedCtr % 65536)) ∧
     outcomeFlashes .storageMissing ≠ outcomeFlashes (.ready (e.storedCtr % 65536))) := by
  rcases e with ⟨cam, mnt, card, ctr⟩
  refine ⟨?_, ?_, ?_, ?_, by decide, by decide, by decide, by simp [outcomeFlashes],
    by simp [outcomeFlashes], by simp [outcomeFlashes]⟩
  · intro h; subst h; rfl
  · intro h1 h2; subst h1; subst h2; rfl
  · intro h1 h2 h3; subst h1; subst h2; subst h3; rfl
  · intro h1 h2 h3; subst h1; subst h2; subst h3; rfl

/-- Witness for C8 at concrete environments: camera failure blocks the
mount; camera success with mount failure reports StorageFailed; a fully
healthy environment becomes Ready with the stored counter. -/
theorem c8_init_ordering_witness :
    setupSeq ⟨false, true, true, 9⟩ = (.cameraFailed, false) ∧
    setupSeq ⟨true, false, true, 9⟩ = (.storageFailed, true) ∧
    setupSeq ⟨true, true, true, 9⟩ = (.ready 9, true) :=
  ⟨(c8_init_ordering ⟨false, true, true, 9⟩).1 rfl,
   (c8_init_ordering ⟨true, false, true, 9⟩).2.1 rfl rfl,
   (c8_init_ordering ⟨true, true, true, 9⟩).2.2.2.1 rfl rfl rfl⟩

/-- Mapping a key-preserving per-entry update commutes with `lookup`. -/
theorem lookup_map_if (n : String) (f : FsTree → FsTree) :
    ∀ ch : List (String × FsTree),
    (ch.map fun e => if e.1 = n then (e.1, f e.2) else e).lookup n
      = (ch.lookup n).map f := by
  intro ch
  induction ch with
  | nil => rfl
  | cons e r ih =>
      rcases e with ⟨k, v⟩
      rw [List.map_cons,
        show (if (k, v).1 = n then ((k, v).1, f (k, v).2) else (k, v))
          = if k = n then (k, f v) else (k, v) from rfl]
      by_cases h : k = n
      · subst h
        rw [if_pos rfl]
        simp [List.lookup_cons, ih]
      · rw [if_neg h]
        have hb : (n == k) = false := by simp [Ne.symm h]
        simp [List.lookup_cons, hb, ih]

theorem lookup_filter_ne (n : String) : ∀ ch : List (String × FsTree),
    (ch.filter fun e => e.1 != n).lookup n = none := by
  intro ch
  induction ch with
  | nil => rfl
  | cons e r ih =>
      rcases e with ⟨k, v⟩
      rw [List.filter_cons, show ((k, v).1 != n) = (k != n) from rfl]
      by_cases h : k = n
      · subst h
        simp [ih]
      · have hkn : (k != n) = true := by simp [h]
        have hb : (n == k) = false := by simp [Ne.symm h]
        rw [hkn]
        simp [List.lookup_cons, hb, ih]

theorem filter_map_if_eq (n : String) (f : FsTree → FsTree) :
    ∀ ch : List (String × FsTree),
    ((ch.map fun e => if e.1 = n then (e.1, f e.2) else e).filter fun e => e.1 != n)
      = ch.filter fun e => e.1 != n := by
  intro ch
  induction ch with
  | nil => rfl
  | cons e r ih =>
      rcases e with ⟨k, v⟩
      rw [List.map_cons,
        show (if (k, v).1 = n then ((k, v).1, f (k, v).2) else (k, v))
          = if k = n then (k, f v) else (k, v) from rfl]
      by_cases h : k = n
      · subst h
        rw [if_pos rfl]
        simp [List.filter_cons, ih]
      · rw [if_neg h]
        have hkn : (k != n) = true := by simp [h]
        simp [List.filter_cons, hkn, ih]

theorem lookupT_fsErase_self : ∀ (p : List String) (t : FsTree), p ≠ [] →
    lookupT (fsErase t p) p = none := by
  intro p
  induction p with
  | nil => intro t h; exact absurd rfl h
  | cons n p' ih =>
      intro t _
      cases p' with
      | nil =>
          cases t with
          | file b => rfl
          | dir ch =>
              show lookupT (.dir (ch.filter fun e => e.1 != n)) [n] = none
              rw [lookupT, lookup_filter_ne]
      | cons m rest =>
          cases t with
          | file b => rfl
          | dir ch =>
              show lookupT (.dir (ch.map fun e =>
                  if e.1 = n then (e.1, fsErase e.2 (m :: rest)) else e)) (n :: m :: rest)
                = none
              rw [lookupT, lookup_map_if n (fun t => fsErase t (m :: rest)) ch]
              cases hl : ch.lookup n with
              | none => rfl
              | some t' =>
                  simp only [Option.map_some']
                  exact ih t' (by simp)

theorem fsErase_dir_cons (ch0 : List (String × FsTree)) (m : String) (tl : List String)
    (h : tl ≠ []) :
    fsErase (.dir ch0) (m :: tl)
      = .dir (ch0.map fun e => if e.1 = m then (e.1, fsErase e.2 tl) else e) := by
  cases tl with
  | nil => exact absurd rfl h
  | cons x r => rfl

theorem lookupT_fsErase_parent : ∀ (q : List String) (t : FsTree)
    (ch : List (String × FsTree)) (n : String),
    lookupT t q = some (.dir ch) →
    lookupT (fsErase t (q ++ [n])) q = some (.dir (ch.filter fun e => e.1 != n)) := by
  intro q
  induction q with
  | nil =>
      intro t ch n h
      simp only [lookupT] at h
      have ht : t = .dir ch := Option.some.inj h
      subst ht
      rfl
  | cons m q' ih =>
      intro t ch n h
      cases t with
      | file b => exact Option.noConfusion h
      | dir ch0 =>
          rw [lookupT] at h
          cases hl : ch0.lookup m with
          | none => rw [hl] at h; exact Option.noConfusion h
          | some t' =>
              rw [hl] at h
              rw [show (m :: q') ++ [n] = m :: (q' ++ [n]) from rfl]
              rw [fsErase_dir_cons ch0 m (q' ++ [n]) (by simp)]
              rw [lookupT, lookup_map_if m (fun t => fsErase t (q' ++ [n])) ch0, hl]
              simp only [Option.map_some']
              exact ih t' ch n h

theorem fsErase_absorb : ∀ (p : List String), p ≠ [] → ∀ (q : List String), q ≠ [] →
    ∀ t : FsTree, fsErase (fsErase t (p ++ q)) p = fsErase t p := by
  intro p
  induction p with
  | nil => intro h; exact absurd rfl h
  | cons n p' ih =>
      intro _ q hq t
      cases t with
      | file b => rfl
      | dir ch =>
          cases p' with
          | nil =>
              rw [show ([n] : List String) ++ q = n :: q from rfl]
              rw [fsErase_dir_cons ch n q hq]
              show FsTree.dir (((ch.map fun e =>
                  if e.1 = n then (e.1, fsErase e.2 q) else e).filter fun e => e.1 != n))
                = FsTree.dir (ch.filter fun e => e.1 != n)
              rw [filter_map_if_eq n (fun t => fsErase t q) ch]
          | cons n2 p'' =>
              rw [show (n :: n2 :: p'') ++ q = n :: ((n2 :: p'') ++ q) from rfl]
              rw [fsErase_dir_cons ch n ((n2 :: p'') ++ q) (by simp)]
              rw [fsErase_dir_cons
                (ch.map fun e => if e.1 = n then (e.1, fsErase e.2 ((n2 :: p'') ++ q)) else e)
                n (n2 :: p'') (by simp)]
              rw [fsErase_dir_cons ch n (n2 :: p'') (by simp)]
              rw [List.map_map]
              apply congrArg
              apply List.map_congr_left
              intro e _
              rcases e with ⟨k, v⟩
              simp only [Function.comp_apply]
              rw [show (if (k, v).1 = n then ((k, v).1, fsErase (k, v).2 ((n2 :: p'') ++ q))
                  else (k, v)) = if k = n then (k, fsErase v ((n2 :: p'') ++ q)) else (k, v)
                from rfl]
              rw [show (if (k, v).1 = n then ((k, v).1, fsErase (k, v).2 (n2 :: p''))
                  else (k, v)) = if k = n then (k, fsErase v (n2 :: p'')) else (k, v)
                from rfl]
              by_cases h : k = n
              · rw [if_pos h]
                rw [show (if (k, fsErase v ((n2 :: p'') ++ q)).1 = n
                    then ((k, fsErase v ((n2 :: p'') ++ q)).1,
                          fsErase (k, fsErase v ((n2 :: p'') ++ q)).2 (n2 :: p''))
                    else (k, fsErase v ((n2 :: p'') ++ q)))
                  = if k = n
                    then (k, fsErase (fsErase v ((n2 :: p'') ++ q)) (n2 :: p''))
                    else (k, fsErase v ((n2 :: p'') ++ q)) from rfl]
                rw [if_pos h, if_pos h]
                rw [ih (by simp) q hq v]
              · rw [if_neg h, if_neg h]

theorem applyOps_absorb : ∀ (ops : List DelOp) (t : FsTree) (p : List String), p ≠ [] →
    (∀ op ∈ ops, ∃ q, q ≠ [] ∧ opPath op = p ++ q) →
    fsErase (applyOps t ops) p = fsErase t p := by
  intro ops
  induction ops with
  | nil => intro t p _ _; rfl
  | cons op rest ih =>
      intro t p hp hall
      obtain ⟨q, hq, hpath⟩ := hall op (List.mem_cons_self op rest)
      show fsErase (applyOps (fsErase t (opPath op)) rest) p = fsErase t p
      rw [ih (fsErase t (opPath op)) p hp (fun o ho => hall o (List.mem_cons_of_mem op ho))]
      rw [hpath]
      exact fsErase_absorb p hp q hq t

theorem delTraceList_extends : ∀ (p : List String) (ch : List (String × FsTree)),
    (∀ nm t, (nm, t) ∈ ch →
      ∀ op ∈ delTrace (p ++ [nm]) t, ∃ q, opPath op = (p ++ [nm]) ++ q) →
    ∀ op ∈ delTraceList p ch, ∃ q, q ≠ [] ∧ opPath op = p ++ q := by
  intro p ch
  induction ch with
  | nil => intro _ op hop; simp [delTraceList] at hop
  | cons e r ih =>
      rcases e with ⟨nm, t⟩
      intro hh op hop
      rw [show delTraceList p ((nm, t) :: r)
          = delTrace (p ++ [nm]) t ++ delTraceList p r from rfl] at hop
      rcases List.mem_append.mp hop with h | h
      · obtain ⟨q, hq⟩ := hh nm t (List.mem_cons_self _ _) op h
        exact ⟨[nm] ++ q, by simp, by rw [hq, List.append_assoc]⟩
      · exact ih (fun nm' t' hmem => hh nm' t' (List.mem_cons_of_mem _ hmem)) op h

theorem delTrace_extends_size : ∀ (k : Nat) (sub : FsTree), sizeOf sub ≤ k →
    ∀ (p : List String) (op : DelOp), op ∈ delTrace p sub → ∃ q, opPath op = p ++ q := by
  intro k
  induction k with
  | zero =>
      intro sub hsz
      exfalso
      cases sub <;> simp_arith at hsz
  | succ k ih =>
      intro sub hsz p op hop
      cases sub with
      | file b =>
          rw [show delTrace p (FsTree.file b) = [DelOp.rm p] from rfl] at hop
          rw [List.mem_singleton] at hop
          subst hop
          exact ⟨[], by simp [opPath]⟩
      | dir ch =>
          rw [show delTrace p (FsTree.dir ch)
              = delTraceList p ch ++ [DelOp.rmdir p] from rfl] at hop
          rcases List.mem_append.mp hop with h | h
          · have hhyp : ∀ nm t, (nm, t) ∈ ch →
                ∀ op' ∈ delTrace (p ++ [nm]) t, ∃ q, opPath op' = (p ++ [nm]) ++ q := by
              intro nm t hmem op' hop'
              refine ih t ?_ (p ++ [nm]) op' hop'
              have h1 := List.sizeOf_lt_of_mem hmem
              have h2 : sizeOf (nm, t) = 1 + sizeOf nm + sizeOf t := rfl
              have h3 : sizeOf (FsTree.dir ch) = 1 + sizeOf ch := by
                simp [FsTree.dir.sizeOf_spec]
              omega
            obtain ⟨q, hq, hpath⟩ := delTraceList_extends p ch hhyp op h
            exact ⟨q, hpath⟩
          · rw [List.mem_singleton] at h
            subst h
            exact ⟨[], by simp [opPath]⟩

theorem deleteRecursive_erase (t : FsTree) (p : List String) (sub : FsTree)
    (hp : p ≠ []) (hlk : lookupT t p = some sub) :
    applyOps t (delTrace p sub) = fsErase t p := by
  cases sub with
  | file b =>
      show applyOps t [DelOp.rm p] = fsErase t p
      rfl
  | dir ch =>
      rw [show delTrace p (FsTree.dir ch)
          = delTraceList p ch ++ [DelOp.rmdir p] from rfl]
      rw [applyOps, List.foldl_append]
      show fsErase (applyOps t (delTraceList p ch)) p = fsErase t p
      apply applyOps_absorb _ _ _ hp
      apply delTraceList_extends
      intro nm t' hmem op hop
      exact delTrace_extends_size (sizeOf t') t' (le_refl _) (p ++ [nm]) op hop

/-- Claim C7: delete fails with "BAD PATH" on the root or a missing node;
otherwise it removes the node: afterwards the node's path no longer
resolves, the parent directory's child list no longer contains its name,
the final state equals erasing the whole subtree, and the emitted driver
calls visit only strict descendants of the directory before the final
`rmdir` of the directory itself (depth-first, directory removed last). -/
theorem c7_delete_recursive (t : FsTree) (args : List (List String))
    (p : List String) (rest : List (List String)) (hargs : args = p :: rest) :
    ((p = [] ∨ (lookupT t p).isNone = true) → handleDelete t args = (.badPath, t)) ∧
    (∀ sub, p ≠ [] → lookupT t p = some sub →
      handleDelete t args = (.ok, fsErase t p) ∧
      lookupT (handleDelete t args).2 p = none ∧
      (∀ q n ch, p = q ++ [n] → lookupT t q = some (.dir ch) →
        lookupT (handleDelete t args).2 q
          = some (.dir (ch.filter fun e => e.1 != n)) ∧
        n ∉ (ch.filter fun e => e.1 != n).map Prod.fst) ∧
      (∀ ch, sub = .dir ch →
        delTrace p sub = delTraceList p ch ++ [DelOp.rmdir p] ∧
        ∀ op ∈ delTraceList p ch, ∃ q2, q2 ≠ [] ∧ opPath op = p ++ q2)) := by
  subst hargs
  constructor
  · intro h
    simp only [handleDelete, if_pos h]
  · intro sub hp hlk
    have hcond : ¬ (p = [] ∨ (lookupT t p).isNone = true) := by
      intro hc
      rcases hc with hc | hc
      · exact hp hc
      · rw [hlk] at hc; exact Bool.noConfusion hc
    have hdel : handleDelete t (p :: rest) = (.ok, deleteRecursive t p) := by
      simp only [handleDelete, if_neg hcond]
    have hdr : deleteRecursive t p = applyOps t (delTrace p sub) := by
      simp only [deleteRecursive, hlk]
    have hde : deleteRecursive t p = fsErase t p := by
      rw [hdr]
      exact deleteRecursive_erase t p sub hp hlk
    refine ⟨by rw [hdel, hde], ?_, ?_, ?_⟩
    · rw [hdel]
      show lookupT (deleteRecursive t p) p = none
      rw [hde]
      exact lookupT_fsErase_self p t hp
    · intro q n ch hq hlkq
      rw [hdel]
      show lookupT (deleteRecursive t p) q = _ ∧ _
      rw [hde, hq]
      refine ⟨lookupT_fsErase_parent q t ch n hlkq, ?_⟩
      intro hmem
      rw [List.mem_map] at hmem
      obtain ⟨e, he, hfst⟩ := hmem
      rw [List.mem_filter] at he
      have hbne := he.2
      rw [hfst] at hbne
      simp at hbne
    · intro ch hch
      subst hch
      refine ⟨rfl, ?_⟩
      apply delTraceList_extends
      intro nm t' hmem op hop
      exact delTrace_extends_size (sizeOf t') t' (le_refl _) (p ++ [nm]) op hop

/-- Witness for C7 on `sampleTree`: deleting the "photos" directory (one
file and one nested subdirectory inside) yields OK with the erased tree,
the path no longer resolves, and the root listing no longer contains
"photos". -/
theorem c7_delete_recursive_witness :
    handleDelete sampleTree [["photos"]] = (.ok, fsErase sampleTree ["photos"]) ∧
    lookupT (handleDelete sampleTree [["photos"]]).2 ["photos"] = none ∧
    lookupT (handleDelete sampleTree [["photos"]]).2 []
      = some (.dir [("x", FsTree.file [5])]) ∧
    "photos" ∉
      ([("photos", FsTree.dir [("a", FsTree.file [1]),
          ("s", FsTree.dir [("b", FsTree.file [2])])]),
        ("x", FsTree.file [5])].filter
          fun e : String × FsTree => e.1 != "photos").map Prod.fst := by
  have h := (c7_delete_recursive sampleTree [["photos"]] ["photos"] [] rfl).2
    (FsTree.dir [("a", FsTree.file [1]), ("s", FsTree.dir [("b", FsTree.file [2])])])
    (by simp) rfl
  have hpar := h.2.2.1 [] "photos"
    [("photos", FsTree.dir [("a", FsTree.file [1]),
        ("s", FsTree.dir [("b", FsTree.file [2])])]),
     ("x", FsTree.file [5])] rfl rfl
  exact ⟨h.1, h.2.1, hpar.1, hpar.2⟩
